import Mathlib

/-!
Shallow embedding of the mathsDOTearth/crooks-fluctuation repository
(src/src/main.rs and src/src/unirand.rs).

The random generator (`MarsagliaUniRng`) stores `f32` values, but every value
it ever computes is an exact dyadic rational m / 2^24 with 0 ≤ m < 2^24:
the buffer is filled by summing distinct powers 2^-1 … 2^-24, and all later
subtractions and conditional additions of 1 stay inside this set, where IEEE
binary32 arithmetic is exact (24-bit significand, no rounding occurs).  We
therefore model `f32` by `ℚ`; the operations below are line-for-line
transliterations of the Rust code, and are exact reproductions of what the
compiled program computes.  Rust `i32` arithmetic on the seed path never
overflows (all intermediates are below 2^31), so `i32` is modelled by `ℤ`
with truncating division `Int.tdiv` / remainder `Int.tmod`, the semantics of
Rust `/` and `%`.  The `f64` series evaluator in main.rs uses transcendental
functions, which we model over `ℝ` in the usual idealised-real semantics.
-/

/-- State of Marsaglia's universal RNG, mirroring `struct MarsagliaUniRng`
(src/src/unirand.rs lines 8–15).  The Rust buffer is `[f32; 98]`
(`LEN_U = 98`); we model it as a list of rationals of length 98. -/
structure MarsagliaUniRng where
  recent_values : List ℚ
  correction : ℚ
  correction_delta : ℚ
  correction_modulus : ℚ
  current_index : ℕ
  second_index : ℕ
deriving DecidableEq

/-- `MarsagliaUniRng::new()` (unirand.rs lines 19–28): all-zero state. -/
def MarsagliaUniRng.new : MarsagliaUniRng where
  recent_values := List.replicate 98 0
  correction := 0
  correction_delta := 0
  correction_modulus := 0
  current_index := 0
  second_index := 0

/-- Inner loop of `start` (unirand.rs lines 70–80): `n` remaining rounds of
the bit-extraction recurrence on `(i, j, k, l)`, accumulating bits of weight
`t` (halved each round) into `s`.  Rust `%` on `i32` is `Int.tmod`. -/
def startInner : ℕ → ℤ × ℤ × ℤ × ℤ → ℚ → ℚ → (ℤ × ℤ × ℤ × ℤ) × ℚ
  | 0, ijkl, s, _ => (ijkl, s)
  | n + 1, (i, j, k, l), s, t =>
    let m := (((i * j).tmod 179) * k).tmod 179
    let l2 := (53 * l + 1).tmod 169
    let s2 := if (l2 * m).tmod 64 ≥ 32 then s + t else s
    startInner n (j, k, m, l2) s2 (t * (1 / 2))

/-- Outer loop of `start` (unirand.rs lines 67–82): fill `n` further slots of
the buffer starting at index `ii` (the Rust loop runs `ii` over `1..=97`),
each slot receiving the 24-round accumulation started from `s = 0.0`,
`t = 0.5`. -/
def startFill : ℕ → ℕ → ℤ × ℤ × ℤ × ℤ → List ℚ → List ℚ
  | 0, _, _, buf => buf
  | n + 1, ii, ijkl, buf =>
    let r := startInner 24 ijkl 0 (1 / 2)
    startFill n (ii + 1) r.1 (buf.set ii r.2)

/-- `MarsagliaUniRng::start` (unirand.rs lines 62–88): fills buffer slots
1..=97 from the four sub-seeds, sets the three correction scalars and the two
cursors (97 and 33). -/
def MarsagliaUniRng.start (self : MarsagliaUniRng)
    (seed1 seed2 seed3 seed4 : ℤ) : MarsagliaUniRng where
  recent_values := startFill 97 1 (seed1, seed2, seed3, seed4) self.recent_values
  correction := 362436 / 16777216
  correction_delta := 7654321 / 16777216
  correction_modulus := 16777213 / 16777216
  current_index := 97
  second_index := 33

/-- `MarsagliaUniRng::generate` (unirand.rs lines 31–59): returns the drawn
value together with the successor state.  Note the cursor update is
`if idx == 0 { 97 } else { idx - 1 }`, a cycle of length 98 through index 0. -/
def MarsagliaUniRng.generate (self : MarsagliaUniRng) : ℚ × MarsagliaUniRng :=
  let a := self.recent_values.getD self.current_index 0
  let b := self.recent_values.getD self.second_index 0
  let nv0 := a - b
  let nv := if nv0 < 0 then nv0 + 1 else nv0
  let rv := self.recent_values.set self.current_index nv
  let ci := if self.current_index = 0 then 97 else self.current_index - 1
  let si := if self.second_index = 0 then 97 else self.second_index - 1
  let c0 := self.correction - self.correction_delta
  let c := if c0 < 0 then c0 + self.correction_modulus else c0
  let out0 := nv - c
  let out := if out0 < 0 then out0 + 1 else out0
  (out, { recent_values := rv, correction := c,
          correction_delta := self.correction_delta,
          correction_modulus := self.correction_modulus,
          current_index := ci, second_index := si })

/-- `MarsagliaUniRng::initialise` (unirand.rs lines 91–120) applied to a fresh
`new()` state, as the thread-local initialiser does (lines 124–130).  Each
`panic!` branch becomes `none`; success returns the started generator. -/
def initialise (seed : ℤ) : Option MarsagliaUniRng :=
  if seed < 0 ∨ seed > 900000000 then none
  else
    let ij := seed.tdiv 30082
    let kl := seed - 30082 * ij
    let i := (ij.tdiv 177).tmod 177 + 2
    let j := ij.tmod 177 + 2
    let k := (kl.tdiv 169).tmod 178 + 1
    let l := kl.tmod 169
    if i ≤ 0 ∨ i > 178 then none
    else if j ≤ 0 ∨ j > 178 then none
    else if k ≤ 0 ∨ k > 178 then none
    else if l < 0 ∨ l > 168 then none
    else if i = 1 ∧ j = 1 ∧ k = 1 then none
    else some (MarsagliaUniRng.new.start i j k l)

/-- State after `n` successive `generate()` calls. -/
def genIter (st : MarsagliaUniRng) : ℕ → MarsagliaUniRng
  | 0 => st
  | n + 1 => (genIter st n).generate.2

/-- Value returned by the `(n+1)`-st `generate()` call (0-indexed draw `n`). -/
def genOut (st : MarsagliaUniRng) (n : ℕ) : ℚ :=
  ((genIter st n).generate).1

/-- List of the first `n` values returned by successive `generate()` calls. -/
def genList (st : MarsagliaUniRng) : ℕ → List ℚ
  | 0 => []
  | n + 1 => st.generate.1 :: genList st.generate.2 n

/-!
Reference model for the end-to-end golden-vector scenario.  The spec (§4.2)
describes the Marsaglia Universal RNG with a 97-slot zero-based circular
buffer, cursors fixed to 96 and 32 by `start`, and `generate` decrementing
both cursors modulo 97 (wrapping 0 to 96).  The definitions below follow the
spec's words and produce the reference ("golden") draw sequence the spec
demands; they are deliberately distinct from the source transliteration
above, which uses a 98-slot buffer and wraps 0 to 97.
-/

/-- Reference generator state, following the spec's §3 data model: a 97-slot
buffer of values in `[0,1)`, two cursors, three correction scalars. -/
structure SpecGen where
  recent_values : List ℚ
  correction : ℚ
  correction_delta : ℚ
  correction_modulus : ℚ
  current_index : ℕ
  second_index : ℕ
deriving DecidableEq

/-- Spec §4.2 inner bit-extraction rounds for the reference `start`:
`m = ((i·j) mod 179)·k mod 179`, rotate `i←j, j←k, k←m`,
`l = (53·l + 1) mod 169`, accumulate a bit of weight `t` (halved each round)
when `(l·m) mod 64 ≥ 32`. -/
def specInner : ℕ → ℤ × ℤ × ℤ × ℤ → ℚ → ℚ → (ℤ × ℤ × ℤ × ℤ) × ℚ
  | 0, ijkl, s, _ => (ijkl, s)
  | n + 1, (i, j, k, l), s, t =>
    let m := (i * j) % 179 * k % 179
    let l2 := (53 * l + 1) % 169
    let s2 := if (l2 * m) % 64 ≥ 32 then s + t else s
    specInner n (j, k, m, l2) s2 (t * (1 / 2))

/-- Spec §4.2 reference fill: each of the 97 slots (zero-based, starting at
`ii`) receives a 24-round accumulation. -/
def specFill : ℕ → ℕ → ℤ × ℤ × ℤ × ℤ → List ℚ → List ℚ
  | 0, _, _, buf => buf
  | n + 1, ii, ijkl, buf =>
    let r := specInner 24 ijkl 0 (1 / 2)
    specFill n (ii + 1) r.1 (buf.set ii r.2)

/-- Spec §4.2 reference `start`: fills the 97 buffer slots, sets the three
correction scalars, and fixes the cursors to 96 and 32 (zero-based). -/
def specStart (s1 s2 s3 s4 : ℤ) : SpecGen where
  recent_values := specFill 97 0 (s1, s2, s3, s4) (List.replicate 97 0)
  correction := 362436 / 16777216
  correction_delta := 7654321 / 16777216
  correction_modulus := 16777213 / 16777216
  current_index := 96
  second_index := 32

/-- Spec §4.2 reference `generate`: lagged subtraction with wrap into `[0,1)`,
store-back, cursor decrement modulo 97 (wrapping 0 to 96), correction
advance, final wrap. -/
def specGenerate (g : SpecGen) : ℚ × SpecGen :=
  let nv0 := g.recent_values.getD g.current_index 0 -
    g.recent_values.getD g.second_index 0
  let nv := if nv0 < 0 then nv0 + 1 else nv0
  let buf2 := g.recent_values.set g.current_index nv
  let ci2 := if g.current_index = 0 then 96 else g.current_index - 1
  let si2 := if g.second_index = 0 then 96 else g.second_index - 1
  let c0 := g.correction - g.correction_delta
  let c := if c0 < 0 then c0 + g.correction_modulus else c0
  let out0 := nv - c
  let out := if out0 < 0 then out0 + 1 else out0
  (out, { recent_values := buf2, correction := c,
          correction_delta := g.correction_delta,
          correction_modulus := g.correction_modulus,
          current_index := ci2, second_index := si2 })

/-- Spec §4.2 reference `initialise`: validates the seed range, decomposes the
seed into the four sub-seeds, rejects out-of-band sub-seeds and the degenerate
`1,1,1` combination, then starts the generator. -/
def specInitialise (seed : ℤ) : Option SpecGen :=
  if seed < 0 ∨ seed > 900000000 then none
  else
    let ij := seed / 30082
    let kl := seed - 30082 * ij
    let i := (ij / 177) % 177 + 2
    let j := ij % 177 + 2
    let k := (kl / 169) % 178 + 1
    let l := kl % 169
    if i < 1 ∨ i > 178 then none
    else if j < 1 ∨ j > 178 then none
    else if k < 1 ∨ k > 178 then none
    else if l < 0 ∨ l > 168 then none
    else if i = 1 ∧ j = 1 ∧ k = 1 then none
    else some (specStart i j k l)

/-- First `n` draws of the reference generator. -/
def specList (g : SpecGen) : ℕ → List ℚ
  | 0 => []
  | n + 1 => (specGenerate g).1 :: specList (specGenerate g).2 n

/-!
Executable integer twins.  Every `f32` value either generator manipulates is
an exact dyadic rational `z / 2^24`; the twin models below carry the integer
numerator `z` instead of the rational, which Lean can evaluate by `decide`.
The theorems `RngN.generate_toRat`, `initialise_toRat`, … prove the twins
equivalent to the rational models above, so all concrete computation happens
on the twins and is transported back.
-/

/-- Numerator twin of `MarsagliaUniRng`: field `x` here stands for the
rational `x / 2^24` there. -/
structure RngN where
  recent_values : List ℤ
  correction : ℤ
  correction_delta : ℤ
  correction_modulus : ℤ
  current_index : ℕ
  second_index : ℕ
deriving DecidableEq

/-- Interpretation of the numerator twin as the rational-state generator. -/
def divQ (z : ℤ) : ℚ := (z : ℚ) / 2 ^ 24

/-- Interpretation of a twin state as a rational state. -/
def RngN.toRat (s : RngN) : MarsagliaUniRng where
  recent_values := s.recent_values.map divQ
  correction := divQ s.correction
  correction_delta := divQ s.correction_delta
  correction_modulus := divQ s.correction_modulus
  current_index := s.current_index
  second_index := s.second_index

/-- Twin of `MarsagliaUniRng.new`. -/
def RngN.new : RngN := ⟨List.replicate 98 0, 0, 0, 0, 0, 0⟩

/-- Twin of `startInner`: `s`, `t` are numerators over `2^24` (so `t` starts
at `2^23` and halves each round). -/
def innerN : ℕ → ℤ × ℤ × ℤ × ℤ → ℤ → ℤ → (ℤ × ℤ × ℤ × ℤ) × ℤ
  | 0, ijkl, s, _ => (ijkl, s)
  | n + 1, (i, j, k, l), s, t =>
    let m := (((i * j).tmod 179) * k).tmod 179
    let l2 := (53 * l + 1).tmod 169
    let s2 := if (l2 * m).tmod 64 ≥ 32 then s + t else s
    innerN n (j, k, m, l2) s2 (t / 2)

/-- Twin of `startFill`. -/
def fillN : ℕ → ℕ → ℤ × ℤ × ℤ × ℤ → List ℤ → List ℤ
  | 0, _, _, buf => buf
  | n + 1, ii, ijkl, buf =>
    let r := innerN 24 ijkl 0 (2 ^ 23)
    fillN n (ii + 1) r.1 (buf.set ii r.2)

/-- Twin of `MarsagliaUniRng.start`. -/
def RngN.start (self : RngN) (s1 s2 s3 s4 : ℤ) : RngN where
  recent_values := fillN 97 1 (s1, s2, s3, s4) self.recent_values
  correction := 362436
  correction_delta := 7654321
  correction_modulus := 16777213
  current_index := 97
  second_index := 33

/-- Twin of `MarsagliaUniRng.generate` (adding 1 becomes adding `2^24`). -/
def RngN.generate (self : RngN) : ℤ × RngN :=
  let a := self.recent_values.getD self.current_index 0
  let b := self.recent_values.getD self.second_index 0
  let nv0 := a - b
  let nv := if nv0 < 0 then nv0 + 2 ^ 24 else nv0
  let rv := self.recent_values.set self.current_index nv
  let ci := if self.current_index = 0 then 97 else self.current_index - 1
  let si := if self.second_index = 0 then 97 else self.second_index - 1
  let c0 := self.correction - self.correction_delta
  let c := if c0 < 0 then c0 + self.correction_modulus else c0
  let out0 := nv - c
  let out := if out0 < 0 then out0 + 2 ^ 24 else out0
  (out, ⟨rv, c, self.correction_delta, self.correction_modulus, ci, si⟩)

/-- Twin of `initialise`. -/
def initialiseN (seed : ℤ) : Option RngN :=
  if seed < 0 ∨ seed > 900000000 then none
  else
    let ij := seed.tdiv 30082
    let kl := seed - 30082 * ij
    let i := (ij.tdiv 177).tmod 177 + 2
    let j := ij.tmod 177 + 2
    let k := (kl.tdiv 169).tmod 178 + 1
    let l := kl.tmod 169
    if i ≤ 0 ∨ i > 178 then none
    else if j ≤ 0 ∨ j > 178 then none
    else if k ≤ 0 ∨ k > 178 then none
    else if l < 0 ∨ l > 168 then none
    else if i = 1 ∧ j = 1 ∧ k = 1 then none
    else some (RngN.new.start i j k l)

/-- Twin of `genList`. -/
def genListN (s : RngN) : ℕ → List ℤ
  | 0 => []
  | n + 1 => s.generate.1 :: genListN s.generate.2 n

/-- Numerator twin of `SpecGen`. -/
structure SpecGenN where
  recent_values : List ℤ
  correction : ℤ
  correction_delta : ℤ
  correction_modulus : ℤ
  current_index : ℕ
  second_index : ℕ
deriving DecidableEq

/-- Interpretation of a spec twin state as a rational spec state. -/
def SpecGenN.toRat (s : SpecGenN) : SpecGen where
  recent_values := s.recent_values.map divQ
  correction := divQ s.correction
  correction_delta := divQ s.correction_delta
  correction_modulus := divQ s.correction_modulus
  current_index := s.current_index
  second_index := s.second_index

/-- Twin of `specInner`. -/
def specInnerN : ℕ → ℤ × ℤ × ℤ × ℤ → ℤ → ℤ → (ℤ × ℤ × ℤ × ℤ) × ℤ
  | 0, ijkl, s, _ => (ijkl, s)
  | n + 1, (i, j, k, l), s, t =>
    let m := (i * j) % 179 * k % 179
    let l2 := (53 * l + 1) % 169
    let s2 := if (l2 * m) % 64 ≥ 32 then s + t else s
    specInnerN n (j, k, m, l2) s2 (t / 2)

/-- Twin of `specFill`. -/
def specFillN : ℕ → ℕ → ℤ × ℤ × ℤ × ℤ → List ℤ → List ℤ
  | 0, _, _, buf => buf
  | n + 1, ii, ijkl, buf =>
    let r := specInnerN 24 ijkl 0 (2 ^ 23)
    specFillN n (ii + 1) r.1 (buf.set ii r.2)

/-- Twin of `specStart`. -/
def specStartN (s1 s2 s3 s4 : ℤ) : SpecGenN where
  recent_values := specFillN 97 0 (s1, s2, s3, s4) (List.replicate 97 0)
  correction := 362436
  correction_delta := 7654321
  correction_modulus := 16777213
  current_index := 96
  second_index := 32

/-- Twin of `specGenerate`. -/
def SpecGenN.generate (g : SpecGenN) : ℤ × SpecGenN :=
  let nv0 := g.recent_values.getD g.current_index 0 -
    g.recent_values.getD g.second_index 0
  let nv := if nv0 < 0 then nv0 + 2 ^ 24 else nv0
  let buf2 := g.recent_values.set g.current_index nv
  let ci2 := if g.current_index = 0 then 96 else g.current_index - 1
  let si2 := if g.second_index = 0 then 96 else g.second_index - 1
  let c0 := g.correction - g.correction_delta
  let c := if c0 < 0 then c0 + g.correction_modulus else c0
  let out0 := nv - c
  let out := if out0 < 0 then out0 + 2 ^ 24 else out0
  (out, ⟨buf2, c, g.correction_delta, g.correction_modulus, ci2, si2⟩)

/-- Twin of `specInitialise`. -/
def specInitialiseN (seed : ℤ) : Option SpecGenN :=
  if seed < 0 ∨ seed > 900000000 then none
  else
    let ij := seed / 30082
    let kl := seed - 30082 * ij
    let i := (ij / 177) % 177 + 2
    let j := ij % 177 + 2
    let k := (kl / 169) % 178 + 1
    let l := kl % 169
    if i < 1 ∨ i > 178 then none
    else if j < 1 ∨ j > 178 then none
    else if k < 1 ∨ k > 178 then none
    else if l < 0 ∨ l > 168 then none
    else if i = 1 ∧ j = 1 ∧ k = 1 then none
    else some (specStartN i j k l)

/-- Twin of `specList`. -/
def specListN (g : SpecGenN) : ℕ → List ℤ
  | 0 => []
  | n + 1 => g.generate.1 :: specListN g.generate.2 n

/-- Buffer numerators of the source generator after `initialise(12345)`
(slot 0 is the untouched `recent_values[0] = 0`).  Checked below by
`decide` against `initialiseN`. -/
def S0 : RngN :=
  ⟨[0, 303626, 11824493, 15237094, 14584966, 15599242, 1020209, 1662236, 3607458, 16454968, 2677858, 7349528, 4244124, 4932215, 13835366, 8170208, 6164962, 5878699, 873660, 3999885, 5724468, 15012734, 14037131, 11440845, 9327300, 372372, 5623058, 103762, 1719894, 13959949, 15783649, 14493040, 4019519, 436230, 3191150, 13792803, 12329460, 3102346, 14658264, 3624663, 6607133, 14852409, 10708761, 10694262, 12900227, 1424489, 8741924, 2777228, 13105049, 12579028, 12971257, 11497760, 15176858, 9570805, 15775060, 6603040, 956074, 13271444, 84485, 5260367, 2380525, 13124295, 5586592, 15878816, 9449032, 4193945, 16346264, 11727045, 10449989, 4696599, 3707288, 16730775, 7618608, 10477163, 6954688, 13414362, 11160136, 10878121, 15735555, 7309466, 2129433, 15319922, 6065144, 3924660, 2566732, 323098, 14970122, 8674807, 12107171, 7906050, 6998208, 16472573, 11329364, 5588253, 6346104, 9070514, 12849755, 3458603], 362436, 7654321, 16777213, 97, 33⟩

/-- Buffer numerators of the reference (spec) generator after
`initialise(12345)`. -/
def T0 : SpecGenN :=
  ⟨[303626, 11824493, 15237094, 14584966, 15599242, 1020209, 1662236, 3607458, 16454968, 2677858, 7349528, 4244124, 4932215, 13835366, 8170208, 6164962, 5878699, 873660, 3999885, 5724468, 15012734, 14037131, 11440845, 9327300, 372372, 5623058, 103762, 1719894, 13959949, 15783649, 14493040, 4019519, 436230, 3191150, 13792803, 12329460, 3102346, 14658264, 3624663, 6607133, 14852409, 10708761, 10694262, 12900227, 1424489, 8741924, 2777228, 13105049, 12579028, 12971257, 11497760, 15176858, 9570805, 15775060, 6603040, 956074, 13271444, 84485, 5260367, 2380525, 13124295, 5586592, 15878816, 9449032, 4193945, 16346264, 11727045, 10449989, 4696599, 3707288, 16730775, 7618608, 10477163, 6954688, 13414362, 11160136, 10878121, 15735555, 7309466, 2129433, 15319922, 6065144, 3924660, 2566732, 323098, 14970122, 8674807, 12107171, 7906050, 6998208, 16472573, 11329364, 5588253, 6346104, 9070514, 12849755, 3458603], 362436, 7654321, 16777213, 96, 32⟩

/-- Numerators of the first 34 draws of the source generator from seed
12345. -/
def L34 : List ℤ :=
  [10314261, 6999229, 400791, 4040093, 12760266, 4841321, 2477770, 11915646, 8951282, 11851796, 13960208, 8536345, 568039, 2977047, 13713879, 9857696, 4984540, 15939328, 9991220, 3629259, 15329297, 7176511, 13979654, 3068755, 468444, 1334504, 3269001, 15319078, 9383680, 7028451, 15307703, 14216628, 4462284, 898102]

/-- Numerators of the first 34 draws of the reference generator from seed
12345; they agree with `L34` up to draw 33 and differ at draw 34. -/
def M34 : List ℤ :=
  [10314261, 6999229, 400791, 4040093, 12760266, 4841321, 2477770, 11915646, 8951282, 11851796, 13960208, 8536345, 568039, 2977047, 13713879, 9857696, 4984540, 15939328, 9991220, 3629259, 15329297, 7176511, 13979654, 3068755, 468444, 1334504, 3269001, 15319078, 9383680, 7028451, 15307703, 14216628, 4462284, 14652945]

/-!
The series evaluator and the per-pixel colour mapping from src/src/main.rs.
These use `f64` transcendental functions (`sin`, `cosh`, `powf`), modelled
over `ℝ` with real-power semantics (`Real.rpow`), as the spec itself
prescribes ("real-valued power; a negative base with non-integral exponent
yields an implementation-defined/NaN result and must be tolerated").
-/

/-- `crooks_fluctuation_theorem` (src/src/main.rs lines 142–149): the loop
`for i in 1..=terms { sum += (coefficient * term_i).powf(exponent) }` with
`term_i = sin(2π·i + time) / cosh(2π·i + time)`, accumulating left to right
from `sum = 0.0`. -/
noncomputable def crooks_fluctuation_theorem : ℕ → ℝ → ℝ → ℝ → ℝ
  | 0, _, _, _ => 0
  | n + 1, coefficient, exponent, time =>
    crooks_fluctuation_theorem n coefficient exponent time +
      (coefficient * (Real.sin (2 * Real.pi * (n + 1 : ℕ) + time) /
        Real.cosh (2 * Real.pi * (n + 1 : ℕ) + time))) ^ exponent

/-- The series as the spec (§4.1) words it: the sum over `i` from 1 to
`terms` inclusive of `(coefficient · sin(2π·i + phase)/cosh(2π·i + phase))`
raised to `exponent` under real-power semantics. -/
noncomputable def crooksSeriesSum (terms : ℕ) (coefficient exponent phase : ℝ) : ℝ :=
  ∑ i ∈ Finset.Icc 1 terms,
    (coefficient * (Real.sin (2 * Real.pi * (i : ℕ) + phase) /
      Real.cosh (2 * Real.pi * (i : ℕ) + phase))) ^ exponent

/-- Rust `as u8` applied to a finite float: truncate toward zero, then
saturate into `[0, 255]` (Rust reference semantics for float-to-int `as`
casts; they saturate, they never wrap).  For `x < 0` the result is 0, so
flooring before clamping gives the same value as truncating toward zero. -/
noncomputable def as_u8 (x : ℝ) : ℤ := min 255 (max 0 ⌊x⌋)

/-- Red channel byte (main.rs line 185): `(n · r · 255.0) as u8`. -/
noncomputable def redByte (n r : ℝ) : ℤ := as_u8 (n * r * 255)

/-- Green channel byte (main.rs line 186): `((1 − n) · g · 255.0) as u8`. -/
noncomputable def greenByte (n g : ℝ) : ℤ := as_u8 ((1 - n) * g * 255)

/-- Blue channel byte (main.rs line 187):
`((0.5 − |n − 0.5|) · 2 · b · 255.0) as u8`. -/
noncomputable def blueByte (n b : ℝ) : ℤ := as_u8 ((0.5 - |n - 0.5|) * 2 * b * 255)

/-- Invariant of reachable generator states: the buffer still has its 98
slots, every stored value lies in `[0, 1)`, both cursors are at most 97, the
correction lies in `[0, 1)` and the two correction constants are the ones
`start` installs. -/
def RngInv (st : MarsagliaUniRng) : Prop :=
  st.recent_values.length = 98 ∧
  st.current_index ≤ 97 ∧
  st.second_index ≤ 97 ∧
  (∀ x ∈ st.recent_values, 0 ≤ x ∧ x < 1) ∧
  0 ≤ st.correction ∧ st.correction < 1 ∧
  st.correction_delta = 7654321 / 16777216 ∧
  st.correction_modulus = 16777213 / 16777216

/-!
Theorems.  First a block of helper lemmas: basic facts about `divQ` and the
correspondence between the rational models and their integer twins, then the
reachable-state invariant, then one theorem per claim.
-/

theorem opt_eq_some_getD {α : Type} (o : Option α) (d : α) (h : o.isSome) :
    o = some (o.getD d) := by
  cases o with
  | none => simp at h
  | some a => rfl

theorem getD_map_eq {α β : Type} (f : α → β) (d : α) (l : List α) (n : ℕ) :
    (l.map f).getD n (f d) = f (l.getD n d) := by
  induction l generalizing n with
  | nil => simp [List.getD]
  | cons a l ih =>
    cases n with
    | zero => simp [List.getD]
    | succ m => simp [List.getD]

theorem divQ_zero : divQ 0 = 0 := by simp [divQ]

theorem divQ_add (x y : ℤ) : divQ x + divQ y = divQ (x + y) := by
  unfold divQ
  push_cast
  ring

theorem divQ_sub (x y : ℤ) : divQ x - divQ y = divQ (x - y) := by
  unfold divQ
  push_cast
  ring

theorem divQ_neg_iff (x : ℤ) : divQ x < 0 ↔ x < 0 := by
  unfold divQ
  rw [div_lt_iff₀ (by positivity), zero_mul, Int.cast_lt_zero]

theorem divQ_inj : Function.Injective divQ := by
  intro a b h
  unfold divQ at h
  field_simp at h
  exact_mod_cast h

theorem divQ_getD (l : List ℤ) (i : ℕ) :
    (l.map divQ).getD i 0 = divQ (l.getD i 0) := by
  have h := getD_map_eq divQ 0 l i
  rwa [divQ_zero] at h

theorem divQ_ite_lt (x y : ℤ) :
    (if divQ x < 0 then divQ x + divQ y else divQ x) =
      divQ (if x < 0 then x + y else x) := by
  by_cases h : x < 0 <;> simp [divQ_neg_iff, h, divQ_add]

theorem divQ_wrap1 (x : ℤ) :
    (if divQ x < 0 then divQ x + 1 else divQ x) =
      divQ (if x < 0 then x + 2 ^ 24 else x) := by
  rw [show (1 : ℚ) = divQ (2 ^ 24) by unfold divQ; norm_num]
  exact divQ_ite_lt x (2 ^ 24)

theorem generate_toRat (s : RngN) :
    s.toRat.generate = (divQ s.generate.1, RngN.toRat s.generate.2) := by
  unfold MarsagliaUniRng.generate RngN.generate RngN.toRat
  simp only [divQ_getD, divQ_sub, divQ_wrap1, divQ_ite_lt, ← List.map_set]

theorem divQ_halve (t : ℤ) (h : 2 ∣ t) : divQ t * (1 / 2) = divQ (t / 2) := by
  obtain ⟨u, rfl⟩ := h
  rw [Int.mul_ediv_cancel_left _ (by norm_num)]
  unfold divQ
  push_cast
  ring

theorem innerN_toRat (n : ℕ) :
    ∀ (q : ℤ × ℤ × ℤ × ℤ) (s t : ℤ), (2 : ℤ) ^ (n - 1) ∣ t →
      startInner n q (divQ s) (divQ t) =
        ((innerN n q s t).1, divQ (innerN n q s t).2) := by
  induction n with
  | zero => intro q s t _; rfl
  | succ m ih =>
    intro q s t hdvd
    obtain ⟨i, j, k, l⟩ := q
    simp only [startInner, innerN]
    cases m with
    | zero =>
      simp only [startInner, innerN]
      split_ifs <;> simp [divQ_add]
    | succ m2 =>
      have hdvd2 : (2 : ℤ) ^ (m2 + 1) ∣ t := by simpa using hdvd
      have h2 : (2 : ℤ) ∣ t :=
        dvd_trans (dvd_pow_self 2 (Nat.succ_ne_zero m2)) hdvd2
      have hnext : (2 : ℤ) ^ (m2 + 1 - 1) ∣ t / 2 := by
        obtain ⟨u, rfl⟩ := hdvd2
        have ht : (2 : ℤ) ^ (m2 + 1) * u = 2 * (2 ^ m2 * u) := by ring
        rw [ht, Int.mul_ediv_cancel_left _ (by norm_num)]
        simp
      rw [divQ_halve t h2, divQ_add, ← apply_ite divQ]
      exact ih _ _ _ hnext

theorem fillN_toRat (n : ℕ) :
    ∀ (ii : ℕ) (q : ℤ × ℤ × ℤ × ℤ) (buf : List ℤ),
      startFill n ii q (buf.map divQ) = (fillN n ii q buf).map divQ := by
  induction n with
  | zero => intro ii q buf; rfl
  | succ m ih =>
    intro ii q buf
    simp only [startFill, fillN]
    rw [show (0 : ℚ) = divQ 0 from divQ_zero.symm,
      show (1 / 2 : ℚ) = divQ (2 ^ 23) by unfold divQ; norm_num,
      innerN_toRat 24 q 0 (2 ^ 23) (by norm_num), ← List.map_set]
    exact ih (ii + 1) _ _

theorem new_toRat : RngN.toRat RngN.new = MarsagliaUniRng.new := by
  unfold RngN.toRat RngN.new MarsagliaUniRng.new
  simp [List.map_replicate, divQ_zero]

theorem start_toRat (s : RngN) (a b c d : ℤ) :
    MarsagliaUniRng.start (RngN.toRat s) a b c d =
      RngN.toRat (RngN.start s a b c d) := by
  unfold MarsagliaUniRng.start RngN.start RngN.toRat
  simp only [fillN_toRat]
  norm_num [divQ]

theorem initialise_toRat (seed : ℤ) :
    initialise seed = (initialiseN seed).map RngN.toRat := by
  unfold initialise initialiseN
  dsimp only
  split_ifs <;>
    simp [Option.map_some, ← new_toRat, start_toRat]

theorem genList_toRat (n : ℕ) :
    ∀ s : RngN, genList (RngN.toRat s) n = (genListN s n).map divQ := by
  induction n with
  | zero => intro s; rfl
  | succ m ih =>
    intro s
    simp only [genList, genListN, generate_toRat]
    exact congrArg _ (ih s.generate.2)

theorem specInnerN_toRat (n : ℕ) :
    ∀ (q : ℤ × ℤ × ℤ × ℤ) (s t : ℤ), (2 : ℤ) ^ (n - 1) ∣ t →
      specInner n q (divQ s) (divQ t) =
        ((specInnerN n q s t).1, divQ (specInnerN n q s t).2) := by
  induction n with
  | zero => intro q s t _; rfl
  | succ m ih =>
    intro q s t hdvd
    obtain ⟨i, j, k, l⟩ := q
    simp only [specInner, specInnerN]
    cases m with
    | zero =>
      simp only [specInner, specInnerN]
      split_ifs <;> simp [divQ_add]
    | succ m2 =>
      have hdvd2 : (2 : ℤ) ^ (m2 + 1) ∣ t := by simpa using hdvd
      have h2 : (2 : ℤ) ∣ t :=
        dvd_trans (dvd_pow_self 2 (Nat.succ_ne_zero m2)) hdvd2
      have hnext : (2 : ℤ) ^ (m2 + 1 - 1) ∣ t / 2 := by
        obtain ⟨u, rfl⟩ := hdvd2
        have ht : (2 : ℤ) ^ (m2 + 1) * u = 2 * (2 ^ m2 * u) := by ring
        rw [ht, Int.mul_ediv_cancel_left _ (by norm_num)]
        simp
      rw [divQ_halve t h2, divQ_add, ← apply_ite divQ]
      exact ih _ _ _ hnext

theorem specFillN_toRat (n : ℕ) :
    ∀ (ii : ℕ) (q : ℤ × ℤ × ℤ × ℤ) (buf : List ℤ),
      specFill n ii q (buf.map divQ) = (specFillN n ii q buf).map divQ := by
  induction n with
  | zero => intro ii q buf; rfl
  | succ m ih =>
    intro ii q buf
    simp only [specFill, specFillN]
    rw [show (0 : ℚ) = divQ 0 from divQ_zero.symm,
      show (1 / 2 : ℚ) = divQ (2 ^ 23) by unfold divQ; norm_num,
      specInnerN_toRat 24 q 0 (2 ^ 23) (by norm_num), ← List.map_set]
    exact ih (ii + 1) _ _

theorem specStart_toRat (a b c d : ℤ) :
    specStart a b c d = SpecGenN.toRat (specStartN a b c d) := by
  unfold specStart specStartN SpecGenN.toRat
  rw [show (List.replicate 97 (0 : ℚ)) = (List.replicate 97 (0 : ℤ)).map divQ by
    simp [List.map_replicate, divQ_zero]]
  simp only [specFillN_toRat]
  norm_num [divQ]

theorem specInitialise_toRat (seed : ℤ) :
    specInitialise seed = (specInitialiseN seed).map SpecGenN.toRat := by
  unfold specInitialise specInitialiseN
  dsimp only
  split_ifs <;> simp [Option.map_some, specStart_toRat]

theorem specGenerate_toRat (s : SpecGenN) :
    specGenerate s.toRat = (divQ s.generate.1, SpecGenN.toRat s.generate.2) := by
  unfold specGenerate SpecGenN.generate SpecGenN.toRat
  simp only [divQ_getD, divQ_sub, divQ_wrap1, divQ_ite_lt, ← List.map_set]

theorem specList_toRat (n : ℕ) :
    ∀ s : SpecGenN, specList (SpecGenN.toRat s) n = (specListN s n).map divQ := by
  induction n with
  | zero => intro s; rfl
  | succ m ih =>
    intro s
    simp only [specList, specListN, specGenerate_toRat]
    exact congrArg _ (ih s.generate.2)

theorem genList_take (n : ℕ) :
    ∀ (m : ℕ) (s : MarsagliaUniRng), m ≤ n →
      genList s m = (genList s n).take m := by
  induction n with
  | zero => intro m s hm; interval_cases m; rfl
  | succ k ih =>
    intro m s hm
    cases m with
    | zero => rfl
    | succ m2 =>
      simp only [genList, List.take_succ_cons]
      exact congrArg _ (ih m2 s.generate.2 (by omega))

theorem specList_take (n : ℕ) :
    ∀ (m : ℕ) (s : SpecGen), m ≤ n →
      specList s m = (specList s n).take m := by
  induction n with
  | zero => intro m s hm; interval_cases m; rfl
  | succ k ih =>
    intro m s hm
    cases m with
    | zero => rfl
    | succ m2 =>
      simp only [specList, List.take_succ_cons]
      exact congrArg _ (ih m2 (specGenerate s).2 (by omega))

theorem startInner_bounds (n : ℕ) :
    ∀ (q : ℤ × ℤ × ℤ × ℤ) (s t : ℚ), 0 < t →
      s ≤ (startInner n q s t).2 ∧ (startInner n q s t).2 < s + 2 * t := by
  induction n with
  | zero =>
    intro q s t ht
    simp only [startInner]
    exact ⟨le_refl s, by linarith⟩
  | succ m ih =>
    intro q s t ht
    obtain ⟨i, j, k, l⟩ := q
    simp only [startInner]
    split_ifs
    · have h := ih (j, k, (((i * j).tmod 179) * k).tmod 179,
        (53 * l + 1).tmod 169) (s + t) (t * (1 / 2)) (by linarith)
      exact ⟨by linarith [h.1], by linarith [h.2]⟩
    · have h := ih (j, k, (((i * j).tmod 179) * k).tmod 179,
        (53 * l + 1).tmod 169) s (t * (1 / 2)) (by linarith)
      exact ⟨h.1, by linarith [h.2]⟩

theorem startFill_bounds (n : ℕ) :
    ∀ (ii : ℕ) (q : ℤ × ℤ × ℤ × ℤ) (buf : List ℚ),
      (∀ x ∈ buf, 0 ≤ x ∧ x < 1) →
      ∀ x ∈ startFill n ii q buf, 0 ≤ x ∧ x < 1 := by
  induction n with
  | zero => intro ii q buf h; exact h
  | succ m ih =>
    intro ii q buf h x hx
    refine ih (ii + 1) _ _ ?_ x hx
    intro y hy
    rcases List.mem_or_eq_of_mem_set hy with hmem | rfl
    · exact h y hmem
    · have hb := startInner_bounds 24 q 0 (1 / 2) (by norm_num)
      exact ⟨hb.1, by linarith [hb.2]⟩

theorem startFill_length (n : ℕ) :
    ∀ (ii : ℕ) (q : ℤ × ℤ × ℤ × ℤ) (buf : List ℚ),
      (startFill n ii q buf).length = buf.length := by
  induction n with
  | zero => intro ii q buf; rfl
  | succ m ih =>
    intro ii q buf
    simp only [startFill]
    rw [ih, List.length_set]

theorem getD_bounds (l : List ℚ) (h : ∀ x ∈ l, 0 ≤ x ∧ x < 1) (i : ℕ)
    (hi : i < l.length) : 0 ≤ l.getD i 0 ∧ l.getD i 0 < 1 := by
  rw [List.getD_eq_getElem?_getD, List.getElem?_eq_getElem hi]
  exact h _ (List.getElem_mem hi)

theorem start_inv (st₀ : MarsagliaUniRng) (a b c d : ℤ)
    (hm : ∀ x ∈ st₀.recent_values, 0 ≤ x ∧ x < 1)
    (hl : st₀.recent_values.length = 98) :
    RngInv (st₀.start a b c d) := by
  unfold MarsagliaUniRng.start RngInv
  dsimp only
  refine ⟨?_, by norm_num, by norm_num,
    startFill_bounds 97 1 (a, b, c, d) st₀.recent_values hm,
    by norm_num, by norm_num, rfl, rfl⟩
  rw [startFill_length]
  exact hl

theorem initialise_inv (seed : ℤ) (st : MarsagliaUniRng)
    (h : initialise seed = some st) : RngInv st := by
  unfold initialise at h
  dsimp only at h
  split_ifs at h
  obtain rfl := Option.some_injective _ h
  refine start_inv _ _ _ _ _ ?_ (by simp [MarsagliaUniRng.new])
  intro x hx
  simp only [MarsagliaUniRng.new, List.mem_replicate] at hx
  rw [hx.2]
  norm_num

theorem generate_inv (st : MarsagliaUniRng) (h : RngInv st) :
    RngInv st.generate.2 ∧ 0 ≤ st.generate.1 ∧ st.generate.1 < 1 := by
  obtain ⟨hlen, hci, hsi, hmem, hc0, hc1, hd, hm⟩ := h
  have ha := getD_bounds _ hmem st.current_index (by omega)
  have hb := getD_bounds _ hmem st.second_index (by omega)
  unfold MarsagliaUniRng.generate RngInv
  dsimp only
  rw [hd, hm]
  set a := st.recent_values.getD st.current_index 0 with hadef
  set b := st.recent_values.getD st.second_index 0 with hbdef
  have hnv : 0 ≤ (if a - b < 0 then a - b + 1 else a - b) ∧
      (if a - b < 0 then a - b + 1 else a - b) < 1 := by
    split_ifs with hab
    · exact ⟨by linarith [ha.1, hb.2], by linarith⟩
    · exact ⟨by linarith, by linarith [ha.2, hb.1]⟩
  have hcor : 0 ≤ (if st.correction - 7654321 / 16777216 < 0 then
        st.correction - 7654321 / 16777216 + 16777213 / 16777216
      else st.correction - 7654321 / 16777216) ∧
      (if st.correction - 7654321 / 16777216 < 0 then
        st.correction - 7654321 / 16777216 + 16777213 / 16777216
      else st.correction - 7654321 / 16777216) < 1 := by
    split_ifs with hcc
    · constructor <;> [linarith [hc0]; linarith [hc1]]
    · constructor <;> [linarith [hcc]; linarith [hc1]]
  set nv := if a - b < 0 then a - b + 1 else a - b with hnvdef
  set c := if st.correction - 7654321 / 16777216 < 0 then
      st.correction - 7654321 / 16777216 + 16777213 / 16777216
    else st.correction - 7654321 / 16777216 with hcdef
  refine ⟨⟨?_, ?_, ?_, ?_, hcor.1, hcor.2, rfl, rfl⟩, ?_⟩
  · rw [List.length_set]; exact hlen
  · split_ifs <;> omega
  · split_ifs <;> omega
  · intro x hx
    rcases List.mem_or_eq_of_mem_set hx with hx2 | rfl
    · exact hmem x hx2
    · exact hnv
  · split_ifs with hw
    · exact ⟨by linarith [hnv.1, hcor.2], by linarith [hw]⟩
    · exact ⟨by linarith [hw], by linarith [hnv.2, hcor.1]⟩

theorem genIter_inv (seed : ℤ) (st : MarsagliaUniRng)
    (h : initialise seed = some st) (n : ℕ) : RngInv (genIter st n) := by
  induction n with
  | zero => exact initialise_inv seed st h
  | succ m ih => exact (generate_inv _ ih).1

/-- Claim C3: `initialise(seed)` fails with the seed-out-of-range error
exactly when the seed lies outside `[0, 900000000]`; for every seed in that
range it succeeds.  In particular the sub-seed band checks and the degenerate
`i = j = k = 1` check never fire for an in-range seed, because the
decomposition forces `i, j ∈ [2, 178]`, `k ∈ [1, 178]` and `l ∈ [0, 168]`. -/
theorem c3_initialise_succeeds_iff (seed : ℤ) :
    (initialise seed).isSome ↔ 0 ≤ seed ∧ seed ≤ 900000000 := by
  unfold initialise
  dsimp only
  by_cases h1 : seed < 0 ∨ seed > 900000000
  · rw [if_pos h1]
    simp only [Option.isSome_none, Bool.false_eq_true, false_iff]
    omega
  · rw [if_neg h1]
    push_neg at h1
    obtain ⟨hs0, hs9⟩ := h1
    have hij0 : 0 ≤ seed.tdiv 30082 := Int.tdiv_nonneg hs0 (by norm_num)
    have hkl : seed - 30082 * seed.tdiv 30082 = seed.tmod 30082 :=
      (Int.tmod_def seed 30082).symm
    rw [hkl]
    have hkl0 : 0 ≤ seed.tmod 30082 := Int.tmod_nonneg _ hs0
    have hi0 : 0 ≤ ((seed.tdiv 30082).tdiv 177).tmod 177 :=
      Int.tmod_nonneg _ (Int.tdiv_nonneg hij0 (by norm_num))
    have hi1 : ((seed.tdiv 30082).tdiv 177).tmod 177 < 177 :=
      Int.tmod_lt_of_pos _ (by norm_num)
    have hj0 : 0 ≤ (seed.tdiv 30082).tmod 177 := Int.tmod_nonneg _ hij0
    have hj1 : (seed.tdiv 30082).tmod 177 < 177 :=
      Int.tmod_lt_of_pos _ (by norm_num)
    have hk0 : 0 ≤ ((seed.tmod 30082).tdiv 169).tmod 178 :=
      Int.tmod_nonneg _ (Int.tdiv_nonneg hkl0 (by norm_num))
    have hk1 : ((seed.tmod 30082).tdiv 169).tmod 178 < 178 :=
      Int.tmod_lt_of_pos _ (by norm_num)
    have hl0 : 0 ≤ (seed.tmod 30082).tmod 169 := Int.tmod_nonneg _ hkl0
    have hl1 : (seed.tmod 30082).tmod 169 < 169 :=
      Int.tmod_lt_of_pos _ (by norm_num)
    rw [if_neg (by omega), if_neg (by omega), if_neg (by omega),
      if_neg (by omega), if_neg (by omega)]
    simp only [Option.isSome_some, true_iff]
    omega

/-- Claim C4: from every state reachable by a successful `initialise`
followed by any number of `generate()` calls, the next `generate()` returns a
value `v` with `0 ≤ v < 1`. -/
theorem c4_generate_in_unit_interval (seed : ℤ) (st : MarsagliaUniRng)
    (h : initialise seed = some st) (n : ℕ) :
    0 ≤ genOut st n ∧ genOut st n < 1 := by
  have hinv := genIter_inv seed st h n
  have hg := generate_inv _ hinv
  unfold genOut
  exact ⟨hg.2.1, hg.2.2⟩

/-- Witness for C4: seed 0 is accepted and the first draw lies in `[0,1)`. -/
theorem c4_witness :
    0 ≤ genOut ((initialise 0).getD MarsagliaUniRng.new) 0 ∧
      genOut ((initialise 0).getD MarsagliaUniRng.new) 0 < 1 :=
  c4_generate_in_unit_interval 0 _
    (opt_eq_some_getD _ _ (by decide)) 0

/-- Claim C8: `generate()` never fails: in every state reachable from
`new()` plus a successful `initialise` and any number of prior `generate()`
calls, both buffer accesses (`recent_values[current_index]` and
`recent_values[second_index]`) are in bounds of the 98-slot buffer.  In this
pure embedding `generate` is a total function returning the mutated state,
so it returns normally and touches only its own state. -/
theorem c8_buffer_accesses_in_bounds (seed : ℤ) (st : MarsagliaUniRng)
    (h : initialise seed = some st) (n : ℕ) :
    (genIter st n).current_index < (genIter st n).recent_values.length ∧
      (genIter st n).second_index < (genIter st n).recent_values.length := by
  obtain ⟨hlen, hci, hsi, -⟩ := genIter_inv seed st h n
  omega

/-- Witness for C8: seed 0, one prior draw. -/
theorem c8_witness :
    (genIter ((initialise 0).getD MarsagliaUniRng.new) 1).current_index <
        (genIter ((initialise 0).getD MarsagliaUniRng.new) 1).recent_values.length ∧
      (genIter ((initialise 0).getD MarsagliaUniRng.new) 1).second_index <
        (genIter ((initialise 0).getD MarsagliaUniRng.new) 1).recent_values.length :=
  c8_buffer_accesses_in_bounds 0 _
    (opt_eq_some_getD _ _ (by decide)) 1

/-- Counterexample to claim C2 as stated: immediately after a successful
`initialise(12345)` (zero `generate()` calls), `current_index` is 97, which
is not in `[0, 96]`. -/
theorem c2_counterexample :
    (initialise 12345).isSome ∧
      ¬ ((initialise 12345).getD MarsagliaUniRng.new).current_index ≤ 96 := by
  exact ⟨by decide, by decide⟩

/-- Claim C2 as amended: in every reachable state both cursors lie in
`[0, 97]`, and each `generate()` call decrements both cursors modulo 98,
wrapping 0 to 97 (the Rust buffer has 98 slots and the wrap test runs before
the decrement, so the cursor cycle passes through index 0). -/
theorem c2_cursor_invariant (seed : ℤ) (st : MarsagliaUniRng)
    (h : initialise seed = some st) (n : ℕ) :
    (genIter st n).current_index ≤ 97 ∧ (genIter st n).second_index ≤ 97 ∧
    (genIter st (n + 1)).current_index =
      (if (genIter st n).current_index = 0 then 97
       else (genIter st n).current_index - 1) ∧
    (genIter st (n + 1)).second_index =
      (if (genIter st n).second_index = 0 then 97
       else (genIter st n).second_index - 1) := by
  obtain ⟨-, hci, hsi, -⟩ := genIter_inv seed st h n
  exact ⟨hci, hsi, rfl, rfl⟩

/-- Witness for the amended C2 at seed 0, zero prior draws. -/
theorem c2_witness :
    (genIter ((initialise 0).getD MarsagliaUniRng.new) 0).current_index ≤ 97 ∧
    (genIter ((initialise 0).getD MarsagliaUniRng.new) 0).second_index ≤ 97 ∧
    (genIter ((initialise 0).getD MarsagliaUniRng.new) 1).current_index =
      (if (genIter ((initialise 0).getD MarsagliaUniRng.new) 0).current_index = 0
       then 97
       else (genIter ((initialise 0).getD MarsagliaUniRng.new) 0).current_index - 1) ∧
    (genIter ((initialise 0).getD MarsagliaUniRng.new) 1).second_index =
      (if (genIter ((initialise 0).getD MarsagliaUniRng.new) 0).second_index = 0
       then 97
       else (genIter ((initialise 0).getD MarsagliaUniRng.new) 0).second_index - 1) :=
  c2_cursor_invariant 0 _ (opt_eq_some_getD _ _ (by decide)) 0

/-- Claim C7: two independently constructed generators initialised with the
same seed produce identical sequences of draws, for every draw count.  The
generator state is owned by the instance (no hidden shared state in the
model), so equal seeds give equal streams. -/
theorem c7_same_seed_same_stream (seed : ℤ) (g1 g2 : MarsagliaUniRng)
    (h1 : initialise seed = some g1) (h2 : initialise seed = some g2)
    (n : ℕ) : genList g1 n = genList g2 n := by
  rw [h1] at h2
  rw [Option.some_injective _ h2]

/-- Witness for C7: two generators built from seed 0, five draws. -/
theorem c7_witness :
    genList ((initialise 0).getD MarsagliaUniRng.new) 5 =
      genList ((initialise 0).getD MarsagliaUniRng.new) 5 :=
  c7_same_seed_same_stream 0 _ _
    (opt_eq_some_getD _ _ (by decide)) (opt_eq_some_getD _ _ (by decide)) 5

theorem startFill_getD_zero (n : ℕ) :
    ∀ (ii : ℕ) (q : ℤ × ℤ × ℤ × ℤ) (buf : List ℚ), 1 ≤ ii →
      (startFill n ii q buf).getD 0 0 = buf.getD 0 0 := by
  induction n with
  | zero => intro ii q buf _; rfl
  | succ m ih =>
    intro ii q buf hii
    simp only [startFill]
    rw [ih (ii + 1) _ _ (by omega), List.getD_eq_getElem?_getD,
      List.getElem?_set_ne (by omega), ← List.getD_eq_getElem?_getD]

theorem start_getD_zero (st : MarsagliaUniRng) (a b c d : ℤ) :
    (st.start a b c d).recent_values.getD 0 0 = st.recent_values.getD 0 0 := by
  unfold MarsagliaUniRng.start
  dsimp only
  exact startFill_getD_zero 97 1 _ _ (by norm_num)

theorem genIter_second_index (g : MarsagliaUniRng)
    (h33 : g.second_index = 33) :
    ∀ n, n ≤ 33 → (genIter g n).second_index = 33 - n := by
  intro n
  induction n with
  | zero => intro _; simpa using h33
  | succ m ih =>
    intro hm
    have hprev := ih (by omega)
    have hstep : ∀ s : MarsagliaUniRng, s.generate.2.second_index =
        if s.second_index = 0 then 97 else s.second_index - 1 := fun s => rfl
    show (genIter g m).generate.2.second_index = 33 - (m + 1)
    rw [hstep, hprev, if_neg (by omega)]
    omega

/-- Claim C9: `start` writes only buffer slots 1 through 97 and leaves
`recent_values[0]` unchanged, so after `new()` followed by a successful
`initialise(seed)` the slot `recent_values[0]` still holds 0.  Meanwhile the
second cursor, which starts at 33, reaches index 0 after 33 `generate()`
calls, so the untouched slot really is read. -/
theorem c9_slot_zero_untouched (st : MarsagliaUniRng) (s1 s2 s3 s4 : ℤ)
    (seed : ℤ) (g : MarsagliaUniRng) (h : initialise seed = some g) :
    (st.start s1 s2 s3 s4).recent_values.getD 0 0 = st.recent_values.getD 0 0 ∧
      g.recent_values.getD 0 0 = 0 ∧
      (genIter g 33).second_index = 0 := by
  unfold initialise at h
  dsimp only at h
  split_ifs at h
  obtain rfl := Option.some_injective _ h
  refine ⟨start_getD_zero st s1 s2 s3 s4, ?_, ?_⟩
  · rw [start_getD_zero]
    rfl
  · exact genIter_second_index _ rfl 33 (le_refl 33)

/-- Witness for C9 at `st = new()`, sub-seeds 1 1 1 1, seed 0. -/
theorem c9_witness :
    (MarsagliaUniRng.new.start 1 1 1 1).recent_values.getD 0 0 =
        MarsagliaUniRng.new.recent_values.getD 0 0 ∧
      ((initialise 0).getD MarsagliaUniRng.new).recent_values.getD 0 0 = 0 ∧
      (genIter ((initialise 0).getD MarsagliaUniRng.new) 33).second_index = 0 :=
  c9_slot_zero_untouched MarsagliaUniRng.new 1 1 1 1 0 _
    (opt_eq_some_getD _ _ (by decide))

/-- Claim C5: for every `terms ≥ 1` and all real coefficient, exponent and
phase, the loop in `crooks_fluctuation_theorem` computes exactly the sum,
for `i` from 1 to `terms` inclusive, of
`(coefficient · sin(2π·i + phase)/cosh(2π·i + phase)) ^ exponent` under
real-power semantics (`Real.rpow`; there are no NaNs in the real model, so
"tolerating non-finite contributions" is vacuous here). -/
theorem c5_series_evaluates_sum (terms : ℕ) (_h : 1 ≤ terms)
    (coefficient exponent phase : ℝ) :
    crooks_fluctuation_theorem terms coefficient exponent phase =
      crooksSeriesSum terms coefficient exponent phase := by
  clear _h
  induction terms with
  | zero => simp [crooks_fluctuation_theorem, crooksSeriesSum]
  | succ m ih =>
    unfold crooksSeriesSum at ih ⊢
    simp only [crooks_fluctuation_theorem]
    rw [ih, Finset.sum_Icc_succ_top (by omega : 1 ≤ m + 1)]

/-- Witness for C5 at `terms = 3`, coefficient 2, exponent 3, phase 0. -/
theorem c5_witness :
    crooks_fluctuation_theorem 3 2 3 0 = crooksSeriesSum 3 2 3 0 :=
  c5_series_evaluates_sum 3 (by norm_num) 2 3 0

/-- Claim C10: `evaluate(0, c, e, phase)` returns 0 (the empty sum) for all
arguments, and the evaluator is deterministic — in this pure embedding it is
a function of its four arguments, so calls with identical arguments are
definitionally equal. -/
theorem c10_empty_sum_and_deterministic (t : ℕ) (c e p : ℝ) :
    crooks_fluctuation_theorem 0 c e p = 0 ∧
      crooks_fluctuation_theorem t c e p = crooks_fluctuation_theorem t c e p :=
  ⟨rfl, rfl⟩

theorem as_u8_in_range (x : ℝ) (h0 : 0 ≤ x) (h1 : x < 255) :
    as_u8 x = ⌊x⌋ ∧ 0 ≤ as_u8 x ∧ as_u8 x ≤ 255 := by
  have hf0 : (0 : ℤ) ≤ ⌊x⌋ := Int.floor_nonneg.mpr h0
  have hf1 : ⌊x⌋ < 255 := Int.floor_lt.mpr (by exact_mod_cast h1)
  unfold as_u8
  rw [max_eq_right hf0, min_eq_right (by omega)]
  exact ⟨rfl, by omega, by omega⟩

/-- Claim C6: for `n ∈ [0,1]` and `r, g, b ∈ [0,1)` the three channel bytes
lie in `[0, 255]`; the conversion is Rust's saturating float-to-`u8` cast
(`as_u8`, truncate then clamp — never a wrap modulo 256), and under these
hypotheses the raw products already lie in `[0, 255)`, so each byte equals
the plain floor of its raw product. -/
theorem c6_colour_bytes_clamped (n r g b : ℝ)
    (hn0 : 0 ≤ n) (hn1 : n ≤ 1) (hr0 : 0 ≤ r) (hr1 : r < 1)
    (hg0 : 0 ≤ g) (hg1 : g < 1) (hb0 : 0 ≤ b) (hb1 : b < 1) :
    (0 ≤ redByte n r ∧ redByte n r ≤ 255 ∧ redByte n r = ⌊n * r * 255⌋) ∧
    (0 ≤ greenByte n g ∧ greenByte n g ≤ 255 ∧
      greenByte n g = ⌊(1 - n) * g * 255⌋) ∧
    (0 ≤ blueByte n b ∧ blueByte n b ≤ 255 ∧
      blueByte n b = ⌊(0.5 - |n - 0.5|) * 2 * b * 255⌋) := by
  have habs0 : 0 ≤ |n - 0.5| := abs_nonneg _
  have habs1 : |n - 0.5| ≤ 0.5 := abs_le.mpr ⟨by linarith, by linarith⟩
  have hred := as_u8_in_range (n * r * 255)
    (by positivity) (by nlinarith)
  have hgreen := as_u8_in_range ((1 - n) * g * 255)
    (by nlinarith) (by nlinarith)
  have hblue := as_u8_in_range ((0.5 - |n - 0.5|) * 2 * b * 255)
    (by nlinarith) (by nlinarith)
  unfold redByte greenByte blueByte
  exact ⟨⟨hred.2.1, hred.2.2, hred.1⟩, ⟨hgreen.2.1, hgreen.2.2, hgreen.1⟩,
    ⟨hblue.2.1, hblue.2.2, hblue.1⟩⟩

/-- Witness for C6 at `n = 1`, `r = g = b = 1/2`. -/
theorem c6_witness :
    (0 ≤ redByte 1 (1/2) ∧ redByte 1 (1/2) ≤ 255 ∧
      redByte 1 (1/2) = ⌊(1 : ℝ) * (1/2) * 255⌋) ∧
    (0 ≤ greenByte 1 (1/2) ∧ greenByte 1 (1/2) ≤ 255 ∧
      greenByte 1 (1/2) = ⌊(1 - (1 : ℝ)) * (1/2) * 255⌋) ∧
    (0 ≤ blueByte 1 (1/2) ∧ blueByte 1 (1/2) ≤ 255 ∧
      blueByte 1 (1/2) = ⌊(0.5 - |(1 : ℝ) - 0.5|) * 2 * (1/2) * 255⌋) :=
  c6_colour_bytes_clamped 1 (1/2) (1/2) (1/2)
    (by norm_num) (by norm_num) (by norm_num) (by norm_num)
    (by norm_num) (by norm_num) (by norm_num) (by norm_num)

set_option maxRecDepth 8000

/-- Claim C1 (refuted; the code diverges from the spec's reference
algorithm): from seed 12345 the source generator reproduces the reference
(golden) Marsaglia sequence only for the first 33 draws; the 34th draws
differ, hence the first-97-draw sequences differ as well.  The cause is the
source's cursor wrap `if idx == 0 { 97 } else { idx - 1 }`, which tests
before decrementing: the cursor cycle has period 98 and passes through the
never-written slot 0 (which still holds 0.0), whereas the reference
algorithm's cursors cycle through 97 slots and never touch an unwritten
slot.  Draw 34 is the first to read the differing slot (the source reads
`recent_values[0] = 0` where the reference reads its filled slot 96). -/
theorem c1_golden_vector_diverges_at_draw_34 :
    (initialise 12345).map (fun g => genList g 33) =
        (specInitialise 12345).map (fun g => specList g 33) ∧
      (initialise 12345).map (fun g => genList g 34) ≠
        (specInitialise 12345).map (fun g => specList g 34) ∧
      (initialise 12345).map (fun g => genList g 97) ≠
        (specInitialise 12345).map (fun g => specList g 97) := by
  have hN : initialiseN 12345 = some S0 := by decide
  have hM : specInitialiseN 12345 = some T0 := by decide
  have hL : genListN S0 34 = L34 := by decide
  have hT : specListN T0 34 = M34 := by decide
  have htake : L34.take 33 = M34.take 33 := by decide
  have hne : L34 ≠ M34 := by decide
  have h1 : initialise 12345 = some (RngN.toRat S0) := by
    rw [initialise_toRat, hN]
    rfl
  have h2 : specInitialise 12345 = some (SpecGenN.toRat T0) := by
    rw [specInitialise_toRat, hM]
    rfl
  have hg34 : genList (RngN.toRat S0) 34 = L34.map divQ := by
    rw [genList_toRat, hL]
  have hs34 : specList (SpecGenN.toRat T0) 34 = M34.map divQ := by
    rw [specList_toRat, hT]
  have hlists : genList (RngN.toRat S0) 34 ≠ specList (SpecGenN.toRat T0) 34 := by
    rw [hg34, hs34]
    intro hcontra
    exact hne (List.map_injective_iff.mpr divQ_inj hcontra)
  refine ⟨?_, ?_, ?_⟩
  · rw [h1, h2]
    refine congrArg some ?_
    show genList (RngN.toRat S0) 33 = specList (SpecGenN.toRat T0) 33
    rw [genList_take 34 33 _ (by norm_num), specList_take 34 33 _ (by norm_num),
      hg34, hs34, ← List.map_take, ← List.map_take, htake]
  · rw [h1, h2]
    intro hcontra
    have hx : some (genList (RngN.toRat S0) 34) =
        some (specList (SpecGenN.toRat T0) 34) := hcontra
    exact hlists (Option.some_injective _ hx)
  · rw [h1, h2]
    intro hcontra
    have hx : some (genList (RngN.toRat S0) 97) =
        some (specList (SpecGenN.toRat T0) 97) := hcontra
    have h97 := Option.some_injective _ hx
    have h34 : genList (RngN.toRat S0) 34 = specList (SpecGenN.toRat T0) 34 := by
      rw [genList_take 97 34 _ (by norm_num),
        specList_take 97 34 _ (by norm_num), h97]
    exact hlists h34
